import Mathlib

/-!
Verification of the mandelbrot renderer (`src/main.rs`) against its
natural-language specification.

The repository's binary crate (`main.rs`) contains the aggregator loop, the
per-worker configuration cloning, the output-buffer allocation and the final
colour decoding.  The library crate (`mandelbrot::Options`, the escape-time
kernel, the worker loop and the row dispatcher) is not part of the analysed
sources; those components are modelled from the specification, and each such
definition is marked `Modelled from the spec:` in its doc comment.

Machine integers are modelled as `Nat` (no arithmetic in the verified claims
approaches `u32` overflow) and the `f32` fields are modelled as exact
rationals `ℚ`; the claims proved about the numeric kernel only exercise
points where `f32` arithmetic is itself exact.
-/

namespace Mandelbrot

/-- Run configuration, mirroring `mandelbrot::Options` as it is used from
`main.rs` (fields `width`, `height`, `centrex`, `centrey`, `scaley`,
`max_iter`, `samples`, `colour`, `colourise`, `threads`, `progress`,
`thread_id`; the first constructor argument is the maximum colour count). -/
structure Options where
  max_colours : Nat
  max_iter : Nat
  width : Nat
  height : Nat
  centrex : ℚ
  centrey : ℚ
  scaley : ℚ
  samples : Nat
  colour : Nat
  colourise : Bool
  threads : Nat
  progress : Bool
  thread_id : Option Nat

/-- Modelled from the spec: `Options::new` as called from `main`, taking the
twelve parameters in the order of the call site; per §3 the `worker_id`
(`thread_id`) is "unset in the template Configuration", so it is `none`. -/
def Options.new (max_colours max_iter width height : Nat)
    (centrex centrey scaley : ℚ) (samples colour : Nat) (colourise : Bool)
    (threads : Nat) (progress : Bool) : Options :=
  ⟨max_colours, max_iter, width, height, centrex, centrey, scaley,
   samples, colour, colourise, threads, progress, none⟩

/-- The per-worker configuration built by the spawn loop in `generate`:
`let mut local_options = options; local_options.thread_id = Some(i)`. -/
def workerOptions (o : Options) (i : Nat) : Options :=
  { o with thread_id := some i }

/-! ## Escape-time kernel (modelled from the spec, §4.2) -/

/-- Modelled from the spec: `scale_x` is derived from
`scale_y * width/height` to preserve aspect ratio. -/
def scale_x (o : Options) : ℚ := o.scaley * o.width / o.height

/-- Modelled from the spec: the coordinate mapping
`u = (x / width - 0.5) * 2 * scale_x`, `v = (y / height - 0.5) * 2 * scale_y`,
`c = (centre_x + u) + (centre_y + v) i`, over exact rationals. -/
def mapPoint (o : Options) (px py : ℚ) : ℚ × ℚ :=
  (o.centrex + (px / o.width - 1/2) * 2 * scale_x o,
   o.centrey + (py / o.height - 1/2) * 2 * o.scaley)

/-- Modelled from the spec: the escape-time iteration `z ← z² + c` with the
remaining iteration budget as fuel; returns the escape count `n` when
`|z_n|² > 4`, and `none` (the "did not escape" sentinel) when the budget is
exhausted. -/
def escapeFrom (cr ci : ℚ) (zr zi : ℚ) (n : Nat) : Nat → Option Nat
  | 0 => none
  | fuel + 1 =>
    if zr * zr + zi * zi > 4 then some n
    else escapeFrom cr ci (zr * zr - zi * zi + cr) (2 * zr * zi + ci) (n + 1) fuel

/-- Modelled from the spec: full escape-time run from `z₀ = 0` with budget
`maxIter`. -/
def escape (cr ci : ℚ) (maxIter : Nat) : Option Nat :=
  escapeFrom cr ci 0 0 0 maxIter

/-- Modelled from the spec: the fixed "in-set" colour (conventionally black,
i.e. the packed value 0). -/
def inSetColour : Nat := 0

/-- Red channel of a packed colour: bits 0–7. -/
def chR (v : Nat) : Nat := v % 256

/-- Green channel of a packed colour: bits 8–15. -/
def chG (v : Nat) : Nat := v / 256 % 256

/-- Blue channel of a packed colour: bits 16–23. -/
def chB (v : Nat) : Nat := v / 65536 % 256

/-- Pack an RGB triple into the 32-bit layout of §3: bits 0–7 red,
8–15 green, 16–23 blue. -/
def packRGB (r g b : Nat) : Nat := r + 256 * g + 65536 * b

/-- Modelled from the spec: colour of one complex sample point.  The exact
palette functions are an open question in the spec (§9), so the palette for
escaped points is an explicit parameter `pal`; non-escaped points get the
fixed in-set colour. -/
def pointColour (pal : Nat → Nat → Nat) (o : Options) (cr ci : ℚ) : Nat :=
  match escape cr ci o.max_iter with
  | none => inSetColour
  | some n => pal n o.max_iter

/-- Modelled from the spec: channel-wise arithmetic mean of a list of packed
colours (supersampling average). -/
def avgColour (cs : List Nat) : Nat :=
  packRGB ((cs.map chR).sum / cs.length)
          ((cs.map chG).sum / cs.length)
          ((cs.map chB).sum / cs.length)

/-- Modelled from the spec: the colours of the `samples × samples` regular
sub-grid covering pixel (x, y). -/
def sampleColours (pal : Nat → Nat → Nat) (o : Options) (x y : Nat) : List Nat :=
  (List.range o.samples).flatMap fun j =>
    (List.range o.samples).map fun i =>
      let c := mapPoint o ((x : ℚ) + (i : ℚ) / o.samples) ((y : ℚ) + (j : ℚ) / o.samples)
      pointColour pal o c.1 c.2

/-- Modelled from the spec: untinted pixel colour — when `samples = 1` the
pixel maps directly to one complex point, otherwise the sub-grid colours are
averaged channel-wise. -/
def basePixel (pal : Nat → Nat → Nat) (o : Options) (x y : Nat) : Nat :=
  if o.samples = 1 then
    let c := mapPoint o (x : ℚ) (y : ℚ)
    pointColour pal o c.1 c.2
  else
    avgColour (sampleColours pal o x y)

/-- Modelled from the spec: `compute_pixel`.  When `colourise` is set the
result is tinted by a deterministic function `tintF` of the worker identity;
otherwise the worker identity is ignored. -/
def computePixel (pal : Nat → Nat → Nat) (tintF : Nat → Nat → Nat)
    (o : Options) (x y : Nat) : Nat :=
  let base := basePixel pal o x y
  if o.colourise then
    match o.thread_id with
    | some w => tintF w base
    | none => base
  else base

/-! ## Line dispatcher (modelled from the spec, §4.1; the shared counter
itself is `Arc::new(Mutex::new(0))` in `generate`) -/

/-- Modelled from the spec: one `claim()` on the mutex-guarded counter —
if the counter is `< height` it returns the counter value and the
incremented counter, otherwise it returns nothing and leaves the counter
unchanged. -/
def claim (height c : Nat) : Option Nat × Nat :=
  if c < height then (some c, c + 1) else (none, c)

/-- The results of a serialised sequence of `claim()` calls: `sched` lists
the worker ids in the order in which they win the mutex, `c` is the current
counter.  Each entry pairs the calling worker with the row it received. -/
def claimResults (height : Nat) : List Nat → Nat → List (Nat × Option Nat)
  | [], _ => []
  | w :: rest, c => (w, (claim height c).1) :: claimResults height rest (claim height c).2

/-! ## Worker (modelled from the spec, §4.3) -/

/-- Modelled from the spec: the messages a worker emits for the rows it
claimed — for each row `y`, for `x` from 0 to `width - 1`, the pair
`(y * width + x, compute_pixel x y)`. -/
def workerEmit (pal tintF : Nat → Nat → Nat) (o : Options) (rows : List Nat) :
    List (Nat × Nat) :=
  rows.flatMap fun y =>
    (List.range o.width).map fun x => (y * o.width + x, computePixel pal tintF o x y)

/-- The messages of a whole run in which worker `k` gets the rows
`asg[0]`, worker `k+1` the rows `asg[1]`, and so on; each worker runs with
its private `workerOptions` copy, mirroring the spawn loop in `generate`. -/
def runEmissionsFrom (pal tintF : Nat → Nat → Nat) (o : Options) (k : Nat) :
    List (List Nat) → List (Nat × Nat)
  | [] => []
  | rows :: rest =>
    workerEmit pal tintF (workerOptions o k) rows ++
      runEmissionsFrom pal tintF o (k + 1) rest

/-- All messages of a run whose row assignment is `asg`, workers numbered
from 0 as in `for i in 0..options.threads`. -/
def runEmissions (pal tintF : Nat → Nat → Nat) (o : Options)
    (asg : List (List Nat)) : List (Nat × Nat) :=
  runEmissionsFrom pal tintF o 0 asg

/-- The indices a single row contributes to the buffer:
`y * width + x` for `x` in `0..width`. -/
def rowIndices (w y : Nat) : List Nat :=
  (List.range w).map fun x => y * w + x

/-! ## Aggregator (from `generate` in `main.rs`) -/

/-- The buffer allocated in `main`: `vec![0; (width * height) as usize]`. -/
def initialBuffer (o : Options) : List Nat :=
  List.replicate (o.width * o.height) 0

/-- The aggregator's receive loop, one step per received `(i, val)` pair:
`pos` is incremented, then `pos % (width * height / 100)` is evaluated
(this is a Rust panic — modelled as `Except.error ()` — when the divisor
`width * height / 100` is zero), the progress bar ticks when the remainder
is zero, and `out[i] = val` is performed (a panic when `i` is out of
bounds).  The loop ends when the message list — the complete stream of
messages sent before every sender disconnected — is exhausted. -/
def aggLoop (n : Nat) : List (Nat × Nat) → List Nat → Nat → Nat →
    Except Unit (List Nat × Nat)
  | [], out, _, ticks => Except.ok (out, ticks)
  | (i, val) :: rest, out, pos, ticks =>
    if n / 100 = 0 then Except.error ()
    else if i < out.length then
      aggLoop n rest (out.set i val) (pos + 1)
        (if (pos + 1) % (n / 100) = 0 then ticks + 1 else ticks)
    else Except.error ()

/-- The aggregation phase of `generate`: drain the full message stream into
the zero-initialised buffer, counting progress ticks.  `Except.error ()` is
a Rust panic inside the loop. -/
def aggregateE (o : Options) (msgs : List (Nat × Nat)) :
    Except Unit (List Nat × Nat) :=
  aggLoop (o.width * o.height) msgs (initialBuffer o) 0 0

/-- The pure write-fold of the aggregator: `out[i] = val` for each message
in arrival order. -/
def fillBuffer (msgs : List (Nat × Nat)) (buf : List Nat) : List Nat :=
  msgs.foldl (fun b m => b.set m.1 m.2) buf

/-- Colour of the pixel at absolute buffer offset `i` (row `i / width`,
column `i % width`), computed from the template configuration. -/
def pixelAt (pal tintF : Nat → Nat → Nat) (o : Options) (i : Nat) : Nat :=
  computePixel pal tintF o (i % o.width) (i / o.width)

/-- The unique buffer a complete, panic-free run can produce when
`colourise` is off. -/
def canonicalBuf (pal tintF : Nat → Nat → Nat) (o : Options) : List Nat :=
  (List.range (o.width * o.height)).map (pixelAt pal tintF o)

/-! ## Final decode (from `main` in `main.rs`) -/

/-- The channel extraction applied to one packed 32-bit value in `main`:
`r = v & 0x000000ff`, `g = (v & 0x0000ff00) >> 8`,
`b = (v & 0x00ff0000) >> 16`. -/
def decodeVal (v : Nat) : Nat × Nat × Nat :=
  (v &&& 0x000000ff, (v &&& 0x0000ff00) >>> 8, (v &&& 0x00ff0000) >>> 16)

/-- The decode step for pixel (x, y): read the buffer at
`y * width + x` and split the packed value into (r, g, b). -/
def decodePixel (w : Nat) (buffer : List Nat) (x y : Nat) : Nat × Nat × Nat :=
  decodeVal (buffer.getD (y * w + x) 0)

/-! ## Concrete configurations used to instantiate the theorems -/

/-- A 10 × 10 run (exactly 100 pixels), iteration budget 1, one sample,
no per-thread tinting, two workers. -/
def o100 : Options := Options.new 256 1 10 10 0 0 0 1 7 false 2 false

/-- A 15 × 10 run (150 pixels), iteration budget 1, one sample, no
per-thread tinting, one worker. -/
def o150 : Options := Options.new 256 1 15 10 0 0 0 1 7 false 1 false

/-- All ten rows claimed by worker 0. -/
def asgSingle : List (List Nat) := [[0, 1, 2, 3, 4, 5, 6, 7, 8, 9]]

/-- The ten rows split between two workers. -/
def asgSplit : List (List Nat) := [[0, 2, 4, 6, 8], [1, 3, 5, 7, 9]]

/-- A trivial stand-in palette for instantiations. -/
def pal0 : Nat → Nat → Nat := fun n _ => n

/-- A trivial stand-in tint function for instantiations. -/
def tint0 : Nat → Nat → Nat := fun w v => w + v

/-! ## Dispatcher lemmas -/

lemma claimResults_rows (height : Nat) :
    ∀ (sched : List Nat) (c : Nat),
      (claimResults height sched c).filterMap Prod.snd =
        List.range' c (min sched.length (height - c)) := by
  intro sched
  induction sched with
  | nil => intro c; simp [claimResults]
  | cons w rest ih =>
    intro c
    by_cases hc : c < height
    · have h1 : height - c = (height - (c + 1)) + 1 := by omega
      simp only [claimResults, claim, if_pos hc, List.filterMap_cons, ih]
      rw [h1, List.length_cons, Nat.succ_min_succ, List.range'_succ]
    · have h0 : height - c = 0 := by omega
      simp only [claimResults, claim, if_neg hc, List.filterMap_cons, ih]
      simp [h0]

lemma claimResults_none_le (height : Nat) :
    ∀ (sched : List Nat) (c w : Nat), (w, none) ∈ claimResults height sched c →
      height ≤ c + sched.length := by
  intro sched
  induction sched with
  | nil => intro c w h; simp [claimResults] at h
  | cons u rest ih =>
    intro c w h
    by_cases hc : c < height
    · simp only [claimResults, claim, if_pos hc, List.mem_cons] at h
      rcases h with h | h
      · exact absurd (congrArg Prod.snd h) (by simp)
      · have := ih (c + 1) w h
        simp only [List.length_cons]
        omega
    · simp only [List.length_cons]
      omega

/-- C2 (claim): one `claim()` hands out the counter and increments it only
while the counter is below `height`; across any serialisation of
concurrently claiming workers, the rows handed out are exactly
`0, 1, …, min (number of calls) height - 1`, so once any call has returned
nothing every row below `height` has been handed to exactly one caller. -/
theorem claim2_dispatcher_unique_rows (height : Nat) (sched : List Nat) :
    (∀ c, (c < height → claim height c = (some c, c + 1)) ∧
          (height ≤ c → claim height c = (none, c))) ∧
    (claimResults height sched 0).filterMap Prod.snd =
      List.range (min sched.length height) ∧
    ((∃ w, (w, none) ∈ claimResults height sched 0) →
      ∀ r, r < height →
        ((claimResults height sched 0).filterMap Prod.snd).count r = 1) := by
  refine ⟨fun c => ⟨fun h => by simp [claim, h], fun h => by simp [claim, Nat.not_lt.mpr h]⟩, ?_, ?_⟩
  · rw [claimResults_rows, Nat.sub_zero, List.range_eq_range']
  · rintro ⟨w, hw⟩ r hr
    have hlen : height ≤ sched.length := by
      have := claimResults_none_le height sched 0 w hw
      omega
    rw [claimResults_rows, Nat.sub_zero, Nat.min_eq_right hlen, ← List.range_eq_range']
    exact List.count_eq_one_of_mem (List.nodup_range height) (List.mem_range.mpr hr)

/-- Witness for C2 at `height = 2` and the call schedule worker 0, worker 1,
worker 1 (the last call comes back empty). -/
theorem claim2_witness :
    ((1, (none : Option Nat)) ∈ claimResults 2 [0, 1, 1] 0) ∧
    ((claimResults 2 [0, 1, 1] 0).filterMap Prod.snd).count 1 = 1 :=
  ⟨by decide,
   (claim2_dispatcher_unique_rows 2 [0, 1, 1]).2.2 ⟨1, by decide⟩ 1 (by decide)⟩

/-! ## Buffer-fold lemmas -/

lemma fillBuffer_nil (buf : List Nat) : fillBuffer [] buf = buf := rfl

lemma fillBuffer_cons (m : Nat × Nat) (msgs : List (Nat × Nat)) (buf : List Nat) :
    fillBuffer (m :: msgs) buf = fillBuffer msgs (buf.set m.1 m.2) := rfl

lemma fillBuffer_length :
    ∀ (msgs : List (Nat × Nat)) (buf : List Nat),
      (fillBuffer msgs buf).length = buf.length := by
  intro msgs
  induction msgs with
  | nil => intro buf; rfl
  | cons m rest ih =>
    intro buf
    rw [fillBuffer_cons, ih, List.length_set]

lemma fillBuffer_getElem?_not_mem :
    ∀ (msgs : List (Nat × Nat)) (buf : List Nat) (j : Nat),
      j ∉ msgs.map Prod.fst → (fillBuffer msgs buf)[j]? = buf[j]? := by
  intro msgs
  induction msgs with
  | nil => intro buf j _; rfl
  | cons m rest ih =>
    intro buf j hj
    simp only [List.map_cons, List.mem_cons, not_or] at hj
    rw [fillBuffer_cons, ih (buf.set m.1 m.2) j hj.2,
      List.getElem?_set_ne (fun h => hj.1 h.symm)]

lemma fillBuffer_getElem?_fun (f : Nat → Nat) :
    ∀ (msgs : List (Nat × Nat)) (buf : List Nat) (j : Nat),
      (∀ m ∈ msgs, m.2 = f m.1) → j ∈ msgs.map Prod.fst → j < buf.length →
      (fillBuffer msgs buf)[j]? = some (f j) := by
  intro msgs
  induction msgs with
  | nil => intro buf j _ hj _; simp at hj
  | cons m rest ih =>
    intro buf j hf hj hlt
    rw [fillBuffer_cons]
    by_cases hr : j ∈ rest.map Prod.fst
    · exact ih (buf.set m.1 m.2) j (fun x hx => hf x (List.mem_cons_of_mem m hx)) hr
        (by rw [List.length_set]; exact hlt)
    · have hjm : j = m.1 := by
        simp only [List.map_cons, List.mem_cons] at hj
        tauto
      rw [fillBuffer_getElem?_not_mem rest (buf.set m.1 m.2) j hr, hjm,
        List.getElem?_set_self (by rw [← hjm]; exact hlt)]
      rw [hf m (List.mem_cons_self m rest)]

lemma fillBuffer_getElem?_nodup :
    ∀ (msgs : List (Nat × Nat)) (buf : List Nat),
      (msgs.map Prod.fst).Nodup → (∀ m ∈ msgs, m.1 < buf.length) →
      ∀ m ∈ msgs, (fillBuffer msgs buf)[m.1]? = some m.2 := by
  intro msgs
  induction msgs with
  | nil => intro buf _ _ m hm; simp at hm
  | cons m0 rest ih =>
    intro buf hnd hbd m hm
    have hnd' := hnd
    simp only [List.map_cons, List.nodup_cons] at hnd'
    rcases List.mem_cons.mp hm with h | h
    · subst h
      rw [fillBuffer_cons,
        fillBuffer_getElem?_not_mem rest (buf.set m.1 m.2) m.1 hnd'.1,
        List.getElem?_set_self (hbd m (List.mem_cons_self m rest))]
    · rw [fillBuffer_cons]
      exact ih (buf.set m0.1 m0.2) hnd'.2
        (fun x hx => by rw [List.length_set]; exact hbd x (List.mem_cons_of_mem m0 hx))
        m h

/-! ## Aggregator-loop lemmas -/

lemma aggLoop_ok (n : Nat) (hd : n / 100 ≠ 0) :
    ∀ (msgs : List (Nat × Nat)) (buf : List Nat) (p t : Nat),
      (∀ m ∈ msgs, m.1 < buf.length) →
      aggLoop n msgs buf p t =
        Except.ok (fillBuffer msgs buf,
          t + ((p + msgs.length) / (n / 100) - p / (n / 100))) := by
  intro msgs
  induction msgs with
  | nil => intro buf p t _; simp [aggLoop, fillBuffer_nil]
  | cons m rest ih =>
    intro buf p t hbd
    obtain ⟨i, v⟩ := m
    have hi : i < buf.length := hbd (i, v) (List.mem_cons_self _ _)
    rw [show aggLoop n ((i, v) :: rest) buf p t =
        (if n / 100 = 0 then Except.error () else
         if i < buf.length then
           aggLoop n rest (buf.set i v) (p + 1)
             (if (p + 1) % (n / 100) = 0 then t + 1 else t)
         else Except.error ()) from rfl,
      if_neg hd, if_pos hi,
      ih (buf.set i v) (p + 1) (if (p + 1) % (n / 100) = 0 then t + 1 else t)
        (fun x hx => by rw [List.length_set]; exact hbd x (List.mem_cons_of_mem _ hx)),
      fillBuffer_cons]
    congr 2
    simp only [List.length_cons]
    have hlen : p + (rest.length + 1) = p + 1 + rest.length := by omega
    rw [hlen]
    have hmono1 : p / (n / 100) ≤ (p + 1) / (n / 100) :=
      Nat.div_le_div_right (by omega)
    have hmono2 : (p + 1) / (n / 100) ≤ (p + 1 + rest.length) / (n / 100) :=
      Nat.div_le_div_right (by omega)
    by_cases hdvd : (n / 100) ∣ (p + 1)
    · rw [if_pos (Nat.dvd_iff_mod_eq_zero.mp hdvd)]
      have hs := Nat.succ_div_of_dvd hdvd
      omega
    · rw [if_neg (fun h => hdvd (Nat.dvd_iff_mod_eq_zero.mpr h))]
      have hs := Nat.succ_div_of_not_dvd hdvd
      omega

/-! ## Emission-index lemmas -/

lemma workerEmit_map_fst (pal tintF : Nat → Nat → Nat) (o' : Options)
    (rows : List Nat) :
    (workerEmit pal tintF o' rows).map Prod.fst =
      rows.flatMap (rowIndices o'.width) := by
  unfold workerEmit rowIndices
  rw [List.map_flatMap]
  congr 1
  funext y
  rw [List.map_map]
  rfl

lemma runEmissionsFrom_map_fst (pal tintF : Nat → Nat → Nat) (o : Options) :
    ∀ (asg : List (List Nat)) (k : Nat),
      (runEmissionsFrom pal tintF o k asg).map Prod.fst =
        asg.flatten.flatMap (rowIndices o.width) := by
  intro asg
  induction asg with
  | nil => intro k; rfl
  | cons rows rest ih =>
    intro k
    rw [runEmissionsFrom, List.map_append, workerEmit_map_fst, ih (k + 1),
      List.flatten_cons, List.flatMap_append]
    rfl

lemma range_flatMap_rowIndices (w : Nat) :
    ∀ h : Nat, (List.range h).flatMap (rowIndices w) = List.range (w * h) := by
  intro h
  induction h with
  | zero => rfl
  | succ h ih =>
    rw [List.range_succ, List.flatMap_append, ih, Nat.mul_succ, List.range_add]
    congr 1
    simp only [List.flatMap_cons, List.flatMap_nil, List.append_nil, rowIndices]
    congr 1
    funext x
    rw [Nat.mul_comm]

lemma msgs_indices_perm (pal tintF : Nat → Nat → Nat) (o : Options)
    (asg : List (List Nat)) (msgs : List (Nat × Nat))
    (hpart : asg.flatten.Perm (List.range o.height))
    (hmsgs : msgs.Perm (runEmissions pal tintF o asg)) :
    (msgs.map Prod.fst).Perm (List.range (o.width * o.height)) := by
  have h1 := hmsgs.map Prod.fst
  rw [runEmissions, runEmissionsFrom_map_fst] at h1
  have h2 := hpart.flatMap_right (rowIndices o.width)
  rw [range_flatMap_rowIndices] at h2
  exact h1.trans h2

lemma msgs_length_eq (pal tintF : Nat → Nat → Nat) (o : Options)
    (asg : List (List Nat)) (msgs : List (Nat × Nat))
    (hpart : asg.flatten.Perm (List.range o.height))
    (hmsgs : msgs.Perm (runEmissions pal tintF o asg)) :
    msgs.length = o.width * o.height := by
  have := (msgs_indices_perm pal tintF o asg msgs hpart hmsgs).length_eq
  rwa [List.length_map, List.length_range] at this

lemma msgs_indices_lt (pal tintF : Nat → Nat → Nat) (o : Options)
    (asg : List (List Nat)) (msgs : List (Nat × Nat))
    (hpart : asg.flatten.Perm (List.range o.height))
    (hmsgs : msgs.Perm (runEmissions pal tintF o asg)) :
    ∀ m ∈ msgs, m.1 < o.width * o.height := by
  intro m hm
  have hmem : m.1 ∈ msgs.map Prod.fst := List.mem_map_of_mem Prod.fst hm
  have := (msgs_indices_perm pal tintF o asg msgs hpart hmsgs).mem_iff.mp hmem
  exact List.mem_range.mp this

/-- A complete, panic-free aggregation: with at least 100 pixels and a
message stream that is some arrival order of a full run's emissions, the
aggregator consumes every message and returns the written buffer together
with `N / (N / 100)` progress ticks, where `N = width * height`. -/
lemma aggregateE_complete (pal tintF : Nat → Nat → Nat) (o : Options)
    (asg : List (List Nat)) (msgs : List (Nat × Nat))
    (hpart : asg.flatten.Perm (List.range o.height))
    (hmsgs : msgs.Perm (runEmissions pal tintF o asg))
    (hN : 100 ≤ o.width * o.height) :
    aggregateE o msgs =
      Except.ok (fillBuffer msgs (initialBuffer o),
        o.width * o.height / (o.width * o.height / 100)) := by
  have hd : o.width * o.height / 100 ≠ 0 := by
    have := Nat.div_pos hN (by omega)
    omega
  have hbd : ∀ m ∈ msgs, m.1 < (initialBuffer o).length := by
    intro m hm
    rw [initialBuffer, List.length_replicate]
    exact msgs_indices_lt pal tintF o asg msgs hpart hmsgs m hm
  rw [aggregateE, aggLoop_ok (o.width * o.height) hd msgs (initialBuffer o) 0 0 hbd,
    msgs_length_eq pal tintF o asg msgs hpart hmsgs]
  simp

/-- Modelled from the spec: a 3 × 3 run (9 pixels), used to exhibit the
small-image divisor. -/
def o9 : Options := Options.new 256 1 3 3 0 0 0 1 7 false 1 false

/-- Modelled from the spec: a 5 × 5 run (25 pixels), a valid configuration
below the 100-pixel threshold. -/
def o25 : Options := Options.new 256 1 5 5 0 0 0 1 7 false 1 false

/-- C1: for a run whose rows were each claimed exactly once (any partition
of `0..height` among the workers, any arrival order of the channel
messages) on an image of at least 100 pixels, `generate` completes: the
output buffer has exactly `width * height` entries, and every slot
`0..width*height` is the target of exactly one aggregator write. -/
theorem claim1_buffer_exactly_once (pal tintF : Nat → Nat → Nat) (o : Options)
    (asg : List (List Nat)) (msgs : List (Nat × Nat))
    (hpart : asg.flatten.Perm (List.range o.height))
    (hmsgs : msgs.Perm (runEmissions pal tintF o asg))
    (hN : 100 ≤ o.width * o.height) :
    (∃ ticks, aggregateE o msgs =
        Except.ok (fillBuffer msgs (initialBuffer o), ticks)) ∧
    (fillBuffer msgs (initialBuffer o)).length = o.width * o.height ∧
    ∀ j, j < o.width * o.height → List.count j (msgs.map Prod.fst) = 1 := by
  refine ⟨⟨_, aggregateE_complete pal tintF o asg msgs hpart hmsgs hN⟩, ?_, ?_⟩
  · rw [fillBuffer_length, initialBuffer, List.length_replicate]
  · intro j hj
    rw [(msgs_indices_perm pal tintF o asg msgs hpart hmsgs).count_eq j]
    exact List.count_eq_one_of_mem (List.nodup_range _) (List.mem_range.mpr hj)

/-- Witness for C1: the 10 × 10 configuration with the rows split between
two workers. -/
theorem claim1_witness :
    (∃ ticks, aggregateE o100 (runEmissions pal0 tint0 o100 asgSplit) =
        Except.ok (fillBuffer (runEmissions pal0 tint0 o100 asgSplit)
          (initialBuffer o100), ticks)) ∧
    (fillBuffer (runEmissions pal0 tint0 o100 asgSplit)
      (initialBuffer o100)).length = o100.width * o100.height ∧
    ∀ j, j < o100.width * o100.height →
      List.count j ((runEmissions pal0 tint0 o100 asgSplit).map Prod.fst) = 1 :=
  claim1_buffer_exactly_once pal0 tint0 o100 asgSplit
    (runEmissions pal0 tint0 o100 asgSplit) (by decide) (List.Perm.refl _)
    (by decide)

/-- C3 (amended): on images of at least 100 pixels the aggregator, fed the
complete stream of messages the workers sent before dropping their sender
endpoints (the cloned template endpoint is itself dropped before draining
begins), consumes every message, terminates normally — end-of-stream is
`Except.ok`, not an error — and its buffer holds `color` at position
`index` for every received `(index, color)` pair.  (Below 100 pixels the
loop panics on the first received pair instead: see the counterexample.) -/
theorem claim3_aggregator_drains (o : Options) (msgs : List (Nat × Nat))
    (hnd : (msgs.map Prod.fst).Nodup)
    (hbd : ∀ m ∈ msgs, m.1 < o.width * o.height)
    (hN : 100 ≤ o.width * o.height) :
    aggregateE o msgs =
      Except.ok (fillBuffer msgs (initialBuffer o),
        msgs.length / (o.width * o.height / 100)) ∧
    ∀ m ∈ msgs, (fillBuffer msgs (initialBuffer o))[m.1]? = some m.2 := by
  have hd : o.width * o.height / 100 ≠ 0 := by
    have := Nat.div_pos hN (by omega)
    omega
  have hbd' : ∀ m ∈ msgs, m.1 < (initialBuffer o).length := by
    intro m hm
    rw [initialBuffer, List.length_replicate]
    exact hbd m hm
  constructor
  · rw [aggregateE, aggLoop_ok (o.width * o.height) hd msgs (initialBuffer o) 0 0 hbd']
    simp
  · exact fillBuffer_getElem?_nodup msgs (initialBuffer o) hnd hbd'

/-- Witness for C3: two messages with distinct indices on the 10 × 10
configuration. -/
theorem claim3_witness :
    aggregateE o100 [(0, 5), (3, 7)] =
      Except.ok (fillBuffer [(0, 5), (3, 7)] (initialBuffer o100),
        [(0, 5), (3, 7)].length / (o100.width * o100.height / 100)) ∧
    ∀ m ∈ [(0, 5), (3, 7)],
      (fillBuffer [(0, 5), (3, 7)] (initialBuffer o100))[m.1]? = some m.2 :=
  claim3_aggregator_drains o100 [(0, 5), (3, 7)] (by decide) (by decide)
    (by decide)

/-- Counterexample to C3 as stated: on the valid 5 × 5 configuration
(25 pixels) the divisor `25 / 100` is zero, so the receive loop panics at
`pos % 0` on the first received pair — it neither writes the pair nor
drains to the end-of-stream. -/
theorem claim3_counterexample :
    aggregateE o25 [(0, 5)] = Except.error () := rfl

/-- C9: when `width * height < 100` the aggregator's divisor
`width * height / 100` is zero, so `pos % 0` panics on the first received
pixel instead of completing the run; with `width * height ≥ 100` (and
in-range indices) the run completes without panicking. -/
theorem claim9_small_run_panics (o : Options) (msgs : List (Nat × Nat)) :
    (o.width * o.height < 100 → msgs ≠ [] →
      aggregateE o msgs = Except.error ()) ∧
    (100 ≤ o.width * o.height → (∀ m ∈ msgs, m.1 < o.width * o.height) →
      ∃ buf ticks, aggregateE o msgs = Except.ok (buf, ticks)) := by
  constructor
  · intro hsmall hne
    match msgs with
    | [] => exact absurd rfl hne
    | (i, v) :: rest =>
      rw [aggregateE, show aggLoop (o.width * o.height) ((i, v) :: rest)
            (initialBuffer o) 0 0 =
          (if o.width * o.height / 100 = 0 then Except.error () else
           if i < (initialBuffer o).length then
             aggLoop (o.width * o.height) rest ((initialBuffer o).set i v) 1
               (if 1 % (o.width * o.height / 100) = 0 then 1 else 0)
           else Except.error ()) from rfl,
        if_pos (Nat.div_eq_of_lt hsmall)]
  · intro hN hbd
    have hd : o.width * o.height / 100 ≠ 0 := by
      have := Nat.div_pos hN (by omega)
      omega
    have hbd' : ∀ m ∈ msgs, m.1 < (initialBuffer o).length := by
      intro m hm
      rw [initialBuffer, List.length_replicate]
      exact hbd m hm
    exact ⟨_, _, by
      rw [aggregateE, aggLoop_ok (o.width * o.height) hd msgs (initialBuffer o) 0 0 hbd']⟩

/-- Witness for C9: the 3 × 3 configuration (9 pixels) panics on its first
message. -/
theorem claim9_witness : aggregateE o9 [(0, 0)] = Except.error () :=
  (claim9_small_run_panics o9 [(0, 0)]).1 (by decide) (by decide)

/-- C10: the output buffer is created as `width * height` zeros, any slot
the aggregator never writes still reads 0 when the run ends, and the decode
step turns the packed value 0 into RGB (0, 0, 0). -/
theorem claim10_prefill_zero (o : Options) (msgs : List (Nat × Nat)) (j : Nat) :
    initialBuffer o = List.replicate (o.width * o.height) 0 ∧
    (j < o.width * o.height → (initialBuffer o)[j]? = some 0) ∧
    (j ∉ msgs.map Prod.fst → j < o.width * o.height →
      (fillBuffer msgs (initialBuffer o))[j]? = some 0) ∧
    decodeVal 0 = (0, 0, 0) := by
  have hget : j < o.width * o.height → (initialBuffer o)[j]? = some 0 := by
    intro hj
    rw [initialBuffer, List.getElem?_replicate, if_pos hj]
  refine ⟨rfl, hget, ?_, rfl⟩
  intro hnm hj
  rw [fillBuffer_getElem?_not_mem msgs (initialBuffer o) j hnm]
  exact hget hj

/-- Witness for C10: slot 5 is untouched by a run that only writes slot 0.
-/
theorem claim10_witness :
    (5 ∉ ([(0, 3)] : List (Nat × Nat)).map Prod.fst) ∧
    (fillBuffer [(0, 3)] (initialBuffer o100))[5]? = some 0 :=
  ⟨by decide,
   (claim10_prefill_zero o100 [(0, 3)] 5).2.2.1 (by decide) (by decide)⟩

/-! ## Kernel lemmas -/

lemma computePixel_workerOptions (pal tintF : Nat → Nat → Nat) (o : Options)
    (k x y : Nat) (hc : o.colourise = false) :
    computePixel pal tintF (workerOptions o k) x y =
      computePixel pal tintF o x y := by
  have hbase : basePixel pal (workerOptions o k) x y = basePixel pal o x y := rfl
  simp only [computePixel, workerOptions, hc, Bool.false_eq_true, if_false]
  exact hbase

lemma pixelAt_index (pal tintF : Nat → Nat → Nat) (o : Options) (x y : Nat)
    (hx : x < o.width) :
    pixelAt pal tintF o (y * o.width + x) = computePixel pal tintF o x y := by
  have hw : 0 < o.width := Nat.lt_of_le_of_lt (Nat.zero_le x) hx
  have h1 : (y * o.width + x) % o.width = x := by
    rw [Nat.mul_comm y o.width, Nat.mul_add_mod, Nat.mod_eq_of_lt hx]
  have h2 : (y * o.width + x) / o.width = y := by
    rw [Nat.mul_comm y o.width, Nat.mul_add_div hw, Nat.div_eq_of_lt hx,
      Nat.add_zero]
  rw [pixelAt, h1, h2]

lemma runEmissionsFrom_values (pal tintF : Nat → Nat → Nat) (o : Options)
    (hc : o.colourise = false) :
    ∀ (asg : List (List Nat)) (k : Nat) (m : Nat × Nat),
      m ∈ runEmissionsFrom pal tintF o k asg →
      m.2 = pixelAt pal tintF o m.1 := by
  intro asg
  induction asg with
  | nil => intro k m hm; simp [runEmissionsFrom] at hm
  | cons rows rest ih =>
    intro k m hm
    rw [runEmissionsFrom] at hm
    rcases List.mem_append.mp hm with h | h
    · rw [workerEmit] at h
      rcases List.mem_flatMap.mp h with ⟨y, _, hy⟩
      rcases List.mem_map.mp hy with ⟨x, hxr, hxe⟩
      have hx : x < o.width := List.mem_range.mp hxr
      rw [← hxe]
      show computePixel pal tintF (workerOptions o k) x y =
        pixelAt pal tintF o (y * (workerOptions o k).width + x)
      rw [computePixel_workerOptions pal tintF o k x y hc]
      exact (pixelAt_index pal tintF o x y hx).symm
    · exact ih (k + 1) m h

lemma fillBuffer_canonical (pal tintF : Nat → Nat → Nat) (o : Options)
    (asg : List (List Nat)) (msgs : List (Nat × Nat))
    (hc : o.colourise = false)
    (hpart : asg.flatten.Perm (List.range o.height))
    (hmsgs : msgs.Perm (runEmissions pal tintF o asg)) :
    fillBuffer msgs (initialBuffer o) = canonicalBuf pal tintF o := by
  apply List.ext_getElem?
  intro j
  by_cases hj : j < o.width * o.height
  · rw [fillBuffer_getElem?_fun (pixelAt pal tintF o) msgs (initialBuffer o) j
      (fun m hm =>
        runEmissionsFrom_values pal tintF o hc asg 0 m (hmsgs.mem_iff.mp hm))
      ((msgs_indices_perm pal tintF o asg msgs hpart hmsgs).mem_iff.mpr
        (List.mem_range.mpr hj))
      (by rw [initialBuffer, List.length_replicate]; exact hj),
      canonicalBuf, List.getElem?_map, List.getElem?_range hj]
    rfl
  · have h1 : (fillBuffer msgs (initialBuffer o))[j]? = none :=
      List.getElem?_eq_none
        (by rw [fillBuffer_length, initialBuffer, List.length_replicate]; omega)
    have h2 : (canonicalBuf pal tintF o)[j]? = none :=
      List.getElem?_eq_none
        (by rw [canonicalBuf, List.length_map, List.length_range]; omega)
    rw [h1, h2]

/-- C5: with `colourise = false`, any two complete runs of the same
configuration — any number of workers, any row partition, any arrival
order — produce the same output buffer, the canonical one computed from
the template configuration alone. -/
theorem claim5_thread_count_determinism (pal tintF : Nat → Nat → Nat)
    (o : Options) (asg₁ asg₂ : List (List Nat)) (msgs₁ msgs₂ : List (Nat × Nat))
    (hc : o.colourise = false)
    (hp₁ : asg₁.flatten.Perm (List.range o.height))
    (hp₂ : asg₂.flatten.Perm (List.range o.height))
    (hm₁ : msgs₁.Perm (runEmissions pal tintF o asg₁))
    (hm₂ : msgs₂.Perm (runEmissions pal tintF o asg₂))
    (hN : 100 ≤ o.width * o.height) :
    ∃ t₁ t₂, aggregateE o msgs₁ = Except.ok (canonicalBuf pal tintF o, t₁) ∧
      aggregateE o msgs₂ = Except.ok (canonicalBuf pal tintF o, t₂) := by
  refine ⟨o.width * o.height / (o.width * o.height / 100),
    o.width * o.height / (o.width * o.height / 100), ?_, ?_⟩
  · rw [aggregateE_complete pal tintF o asg₁ msgs₁ hp₁ hm₁ hN,
      fillBuffer_canonical pal tintF o asg₁ msgs₁ hc hp₁ hm₁]
  · rw [aggregateE_complete pal tintF o asg₂ msgs₂ hp₂ hm₂ hN,
      fillBuffer_canonical pal tintF o asg₂ msgs₂ hc hp₂ hm₂]

/-- Witness for C5: the 10 × 10 configuration rendered by one worker and by
two workers with interleaved rows. -/
theorem claim5_witness :
    ∃ t₁ t₂,
      aggregateE o100 (runEmissions pal0 tint0 o100 asgSingle) =
        Except.ok (canonicalBuf pal0 tint0 o100, t₁) ∧
      aggregateE o100 (runEmissions pal0 tint0 o100 asgSplit) =
        Except.ok (canonicalBuf pal0 tint0 o100, t₂) :=
  claim5_thread_count_determinism pal0 tint0 o100 asgSingle asgSplit
    (runEmissions pal0 tint0 o100 asgSingle)
    (runEmissions pal0 tint0 o100 asgSplit)
    rfl (by decide) (by decide) (List.Perm.refl _) (List.Perm.refl _) (by decide)

/-- C6 (amended): the aggregator ticks whenever the completion counter is a
multiple of `width * height / 100` (integer division), so a completed run
signals `N / (N / 100)` ticks where `N = width * height`; this equals 100
whenever 100 divides `N`, and can differ otherwise (the counterexample's
150-pixel run ticks 150 times). -/
theorem claim6_progress_ticks (pal tintF : Nat → Nat → Nat) (o : Options)
    (asg : List (List Nat)) (msgs : List (Nat × Nat))
    (hpart : asg.flatten.Perm (List.range o.height))
    (hmsgs : msgs.Perm (runEmissions pal tintF o asg))
    (hN : 100 ≤ o.width * o.height) :
    aggregateE o msgs =
      Except.ok (fillBuffer msgs (initialBuffer o),
        o.width * o.height / (o.width * o.height / 100)) ∧
    (100 ∣ o.width * o.height →
      o.width * o.height / (o.width * o.height / 100) = 100) := by
  refine ⟨aggregateE_complete pal tintF o asg msgs hpart hmsgs hN, ?_⟩
  rintro ⟨k, hk⟩
  have hkpos : 0 < k := by omega
  rw [hk, Nat.mul_div_cancel_left k (by omega), Nat.mul_div_cancel 100 hkpos]

/-- Witness for C6: the 10 × 10 run (exactly 100 pixels) ticks
`100 / (100 / 100) = 100` times. -/
theorem claim6_witness :
    aggregateE o100 (runEmissions pal0 tint0 o100 asgSingle) =
      Except.ok (fillBuffer (runEmissions pal0 tint0 o100 asgSingle)
          (initialBuffer o100),
        o100.width * o100.height / (o100.width * o100.height / 100)) ∧
    (100 ∣ o100.width * o100.height →
      o100.width * o100.height / (o100.width * o100.height / 100) = 100) :=
  claim6_progress_ticks pal0 tint0 o100 asgSingle
    (runEmissions pal0 tint0 o100 asgSingle) (by decide) (List.Perm.refl _)
    (by decide)

lemma escape_budget_one (cr ci : ℚ) : escape cr ci 1 = none := by
  rw [escape, escapeFrom, if_neg (by norm_num)]
  rfl

lemma computePixel_budget_one (pal tintF : Nat → Nat → Nat) (o : Options)
    (x y : Nat) (hm : o.max_iter = 1) (hs : o.samples = 1)
    (hc : o.colourise = false) :
    computePixel pal tintF o x y = inSetColour := by
  unfold computePixel basePixel pointColour
  rw [hc, hs, hm]
  simp [escape_budget_one]

lemma canonicalBuf_o150 : canonicalBuf pal0 tint0 o150 = List.replicate 150 0 := by
  have hpix : ∀ i, pixelAt pal0 tint0 o150 i = 0 := by
    intro i
    rw [pixelAt]
    exact computePixel_budget_one pal0 tint0 o150 _ _ rfl rfl rfl
  have hfun : pixelAt pal0 tint0 o150 = fun _ => 0 := funext hpix
  rw [canonicalBuf, hfun, List.map_const', List.length_range]
  rfl

/-- Counterexample to C6 as stated: the valid 15 × 10 configuration
(150 pixels) completes a run with 150 progress ticks, not 100 — the
divisor `150 / 100` truncates to 1, so every received pixel ticks. -/
theorem claim6_counterexample :
    aggregateE o150 (runEmissions pal0 tint0 o150 asgSingle) =
      Except.ok (List.replicate 150 0, 150) ∧ (150 : Nat) ≠ 100 := by
  constructor
  · rw [aggregateE_complete pal0 tint0 o150 asgSingle _ (by decide)
      (List.Perm.refl _) (by decide),
      fillBuffer_canonical pal0 tint0 o150 asgSingle _ rfl (by decide)
        (List.Perm.refl _),
      canonicalBuf_o150]
    rfl
  · decide

/-- C7: each spawned worker `i` receives a copy of the template
configuration that differs from it only in the worker identity, which is
`Some(i)`; identities are pairwise distinct across workers, and the
template built by `Options::new` keeps the identity unset. -/
theorem claim7_worker_config (o : Options) (i j : Nat)
    (mc mi w h : Nat) (cx cy sy : ℚ) (sa co : Nat) (cl : Bool) (th : Nat)
    (pr : Bool) :
    (i ≠ j →
      (workerOptions o i).thread_id ≠ (workerOptions o j).thread_id) ∧
    (workerOptions o i).thread_id = some i ∧
    (workerOptions o i).max_colours = o.max_colours ∧
    (workerOptions o i).max_iter = o.max_iter ∧
    (workerOptions o i).width = o.width ∧
    (workerOptions o i).height = o.height ∧
    (workerOptions o i).centrex = o.centrex ∧
    (workerOptions o i).centrey = o.centrey ∧
    (workerOptions o i).scaley = o.scaley ∧
    (workerOptions o i).samples = o.samples ∧
    (workerOptions o i).colour = o.colour ∧
    (workerOptions o i).colourise = o.colourise ∧
    (workerOptions o i).threads = o.threads ∧
    (workerOptions o i).progress = o.progress ∧
    (Options.new mc mi w h cx cy sy sa co cl th pr).thread_id = none := by
  refine ⟨?_, rfl, rfl, rfl, rfl, rfl, rfl, rfl, rfl, rfl, rfl, rfl, rfl, rfl,
    rfl⟩
  intro hij hcontra
  exact hij (Option.some.inj hcontra)

/-- Witness for C7: workers 0 and 1 of the 10 × 10 configuration get
distinct identities. -/
theorem claim7_witness :
    (workerOptions o100 0).thread_id ≠ (workerOptions o100 1).thread_id :=
  (claim7_worker_config o100 0 1 0 0 0 0 0 0 0 0 0 false 0 false).1
    (by decide)

lemma escapeFrom_zero : ∀ (fuel n : Nat), escapeFrom 0 0 0 0 n fuel = none := by
  intro fuel
  induction fuel with
  | zero => intro n; rfl
  | succ f ih =>
    intro n
    rw [escapeFrom, if_neg (by norm_num)]
    have h1 : (0 * 0 - 0 * 0 + 0 : ℚ) = 0 := by norm_num
    have h2 : (2 * 0 * 0 + 0 : ℚ) = 0 := by norm_num
    rw [h1, h2]
    exact ih (n + 1)

/-- C8: with centre (0, 0), a 1 × 1 image, one sample and zero viewport
scale, pixel (0, 0) maps to the complex point `c = 0`, which never escapes
under any iteration budget (`|z|` stays 0), so the single pixel gets the
fixed in-set colour whatever `max_iterations` is. -/
theorem claim8_origin_never_escapes (pal tintF : Nat → Nat → Nat)
    (o : Options) (n : Nat) (hcx : o.centrex = 0) (hcy : o.centrey = 0)
    (hsy : o.scaley = 0) (hw : o.width = 1) (hh : o.height = 1)
    (hs : o.samples = 1) (hc : o.colourise = false) (hm : 0 < o.max_iter) :
    escape 0 0 n = none ∧ mapPoint o 0 0 = (0, 0) ∧
    computePixel pal tintF o 0 0 = inSetColour := by
  have hmap : mapPoint o 0 0 = (0, 0) := by
    rw [mapPoint, scale_x, hcx, hcy, hsy]
    norm_num
  have hesc : ∀ m, escape 0 0 m = none := fun m => escapeFrom_zero m 0
  refine ⟨hesc n, hmap, ?_⟩
  simp only [computePixel, hc, Bool.false_eq_true, if_false, basePixel, hs,
    if_pos, Nat.cast_zero, hmap, pointColour, hesc]

/-- Witness for C8: the concrete 1 × 1 configuration centred at the origin
with zero scale and budget 7. -/
theorem claim8_witness :
    escape 0 0 5 = none ∧
    mapPoint (Options.new 256 7 1 1 0 0 0 1 7 false 1 false) 0 0 = (0, 0) ∧
    computePixel pal0 tint0 (Options.new 256 7 1 1 0 0 0 1 7 false 1 false)
      0 0 = inSetColour :=
  claim8_origin_never_escapes pal0 tint0
    (Options.new 256 7 1 1 0 0 0 1 7 false 1 false) 5 rfl rfl rfl rfl rfl rfl
    rfl (by decide)

/-! ## Decode lemmas -/

lemma and_mask_shiftRight (v k : Nat) :
    (v &&& (255 <<< k)) >>> k = v / 2 ^ k % 256 := by
  apply Nat.eq_of_testBit_eq
  intro i
  rw [show (256 : Nat) = 2 ^ 8 from rfl, ← Nat.shiftRight_eq_div_pow,
    show (255 : Nat) = 2 ^ 8 - 1 from rfl]
  simp only [Nat.testBit_shiftRight, Nat.testBit_and, Nat.testBit_shiftLeft,
    Nat.testBit_mod_two_pow, Nat.testBit_two_pow_sub_one]
  have h1 : k + i - k = i := by omega
  have h2 : (decide (k + i ≥ k)) = true := by simp
  rw [h1, h2]
  cases v.testBit (k + i) <;> simp

lemma decodeVal_eq (v : Nat) :
    decodeVal v = (v % 256, v / 256 % 256, v / 65536 % 256) := by
  have e0 : v &&& 0x000000ff = v % 256 := by
    have h := and_mask_shiftRight v 0
    rwa [Nat.shiftLeft_zero, Nat.shiftRight_zero, pow_zero, Nat.div_one] at h
  have e8 : (v &&& 0x0000ff00) >>> 8 = v / 256 % 256 := by
    have h := and_mask_shiftRight v 8
    rwa [show (255 <<< 8 : Nat) = 0x0000ff00 from rfl,
      show (2 ^ 8 : Nat) = 256 from rfl] at h
  have e16 : (v &&& 0x00ff0000) >>> 16 = v / 65536 % 256 := by
    have h := and_mask_shiftRight v 16
    rwa [show (255 <<< 16 : Nat) = 0x00ff0000 from rfl,
      show (2 ^ 16 : Nat) = 65536 from rfl] at h
  rw [decodeVal, e0, e8, e16]

/-- C4: the decode loop reads pixel (x, y) from buffer index
`y * width + x` and extracts red from bits 0–7, green from bits 8–15 and
blue from bits 16–23 of the packed value, ignoring bits 24–31. -/
theorem claim4_decode_layout (w : Nat) (buffer : List Nat) (x y v lo hi : Nat) :
    decodePixel w buffer x y = decodeVal (buffer.getD (y * w + x) 0) ∧
    decodeVal v = (v % 256, v / 256 % 256, v / 65536 % 256) ∧
    (lo < 2 ^ 24 → decodeVal (lo + 2 ^ 24 * hi) = decodeVal lo) := by
  refine ⟨rfl, decodeVal_eq v, ?_⟩
  intro hlo
  rw [decodeVal_eq, decodeVal_eq]
  have h1 : (lo + 2 ^ 24 * hi) % 256 = lo % 256 := by omega
  have h2 : (lo + 2 ^ 24 * hi) / 256 % 256 = lo / 256 % 256 := by omega
  have h3 : (lo + 2 ^ 24 * hi) / 65536 % 256 = lo / 65536 % 256 := by omega
  rw [h1, h2, h3]

/-- Witness for C4: bits 24–31 of the packed value `5 + 2²⁴ · 3` make no
difference to the decoded channels. -/
theorem claim4_witness :
    decodePixel 4 [9, 9, 9, 9] 1 0 = decodeVal ([9, 9, 9, 9].getD 1 0) ∧
    decodeVal 7 = (7 % 256, 7 / 256 % 256, 7 / 65536 % 256) ∧
    decodeVal (5 + 2 ^ 24 * 3) = decodeVal 5 :=
  ⟨(claim4_decode_layout 4 [9, 9, 9, 9] 1 0 7 5 3).1,
   (claim4_decode_layout 4 [9, 9, 9, 9] 1 0 7 5 3).2.1,
   (claim4_decode_layout 4 [9, 9, 9, 9] 1 0 7 5 3).2.2 (by decide)⟩

end Mandelbrot
